import Mathlib

set_option maxRecDepth 2000

/-!
Verification of the ylong runtime core against its specification.

This file gives a shallow embedding of the relevant parts of the sources:

* `src/ylong_runtime/src/executor/sleeper.rs` — the packed sleeper word
  (`Record`) and `Sleeper::try_inc_searching_num`;
* `src/ylong_io/src/sys/unix/tcp/socket.rs` — `TcpSocket::connect`;
* `src/ylong_runtime/src/fs/async_file.rs` — the asynchronous file state
  machine (`FileState`, `poll_read`, `poll_write`, `poll_seek`, `poll_flush`,
  `set_len`, `into_std`, `try_into_std`).

Machine integers are embedded as `Nat` with explicit reduction modulo
`2 ^ 64` where the Rust code relies on wrapping `usize` arithmetic.
Blocking jobs are embedded as data (`JobDesc`); polling an in-flight
`JoinHandle` is driven by an oracle list of `JobOutcome`s, one entry
consumed per poll of a handle, so that every interleaving of job
completions corresponds to some oracle.
-/

/-! ## Sleeper (src/ylong_runtime/src/executor/sleeper.rs) -/

/-- Width of the word backing `AtomicUsize`: usize is 64 bits wide here. -/
def USIZE : Nat := 2 ^ 64

/-- `const ACTIVE_WORKER_SHIFT: usize = 16;` -/
def ACTIVE_WORKER_SHIFT : Nat := 16

/-- `const SEARCHING_MASK: usize = (1 << ACTIVE_WORKER_SHIFT) - 1;` -/
def SEARCHING_MASK : Nat := (1 <<< ACTIVE_WORKER_SHIFT) - 1

/-- `const ACTIVE_MASK: usize = !SEARCHING_MASK;`
The bitwise not of a 64-bit word is xor with the all-ones word. -/
def ACTIVE_MASK : Nat := (USIZE - 1) ^^^ SEARCHING_MASK

/-- `struct Record(AtomicUsize)` — the packed sleeper word. -/
structure Record where
  val : Nat
deriving DecidableEq, Repr

/-- `Record::new(active_num)` — `AtomicUsize::new(active_num << ACTIVE_WORKER_SHIFT)`. -/
def Record.new (active_num : Nat) : Record :=
  ⟨(active_num <<< ACTIVE_WORKER_SHIFT) % USIZE⟩

/-- `Record::load_state` — split the word into `(active_num, searching_num)`. -/
def Record.load_state (r : Record) : Nat × Nat :=
  let union_num := r.val
  let searching_num := union_num &&& SEARCHING_MASK
  let active_num := (union_num &&& ACTIVE_MASK) >>> ACTIVE_WORKER_SHIFT
  (active_num, searching_num)

/-- `Record::inc_searching_num` — `fetch_add(1)`. -/
def Record.inc_searching_num (r : Record) : Record :=
  ⟨(r.val + 1) % USIZE⟩

/-- `Record::dec_searching_num` — `fetch_sub(1)`; returns true iff the old
searching field was 1 (the caller was the last searching thread). -/
def Record.dec_searching_num (r : Record) : Record × Bool :=
  let ret := r.val
  (⟨(ret + (USIZE - 1)) % USIZE⟩, (ret &&& SEARCHING_MASK) == 1)

/-- `Record::inc_active_num` — `fetch_add(1 << ACTIVE_WORKER_SHIFT)`. -/
def Record.inc_active_num (r : Record) : Record :=
  ⟨(r.val + (1 <<< ACTIVE_WORKER_SHIFT)) % USIZE⟩

/-- `Record::dec_active_num` — `fetch_sub(1 << ACTIVE_WORKER_SHIFT)`; the
returned flag computes `((ret & ACTIVE_MASK) >> ACTIVE_WORKER_SHIFT) - 1 == 0`
with wrapping usize subtraction. -/
def Record.dec_active_num (r : Record) : Record × Bool :=
  let ret := r.val
  let active_num := (((ret &&& ACTIVE_MASK) >>> ACTIVE_WORKER_SHIFT) + (USIZE - 1)) % USIZE
  (⟨(ret + (USIZE - (1 <<< ACTIVE_WORKER_SHIFT))) % USIZE⟩, active_num == 0)

/-- `Sleeper::try_inc_searching_num` — succeed and increment the searching
count iff the observed state satisfies `searching_num * 2 < active_num`. -/
def Sleeper.try_inc_searching_num (r : Record) : Record × Bool :=
  let s := r.load_state
  if s.2 * 2 < s.1 then (r.inc_searching_num, true) else (r, false)

/-! ### Reference model of the two counters (for the refinement claim) -/

/-- Reference model: the two worker counters kept separately. -/
structure RefCounts where
  active : Nat
  searching : Nat
deriving DecidableEq, Repr

/-- The four operations on the sleeper word. -/
inductive SleeperOp where
  | incActive
  | decActive
  | incSearching
  | decSearching
deriving DecidableEq, Repr

/-- Reference semantics of one operation: the new counters, plus the boolean
output of the dec operations (`some b`): `decActive` reports that active
transitioned to 0, `decSearching` that searching transitioned to 0. -/
def RefCounts.apply (c : RefCounts) : SleeperOp → RefCounts × Option Bool
  | .incActive => (⟨c.active + 1, c.searching⟩, none)
  | .decActive => (⟨c.active - 1, c.searching⟩, some (c.active - 1 == 0))
  | .incSearching => (⟨c.active, c.searching + 1⟩, none)
  | .decSearching => (⟨c.active, c.searching - 1⟩, some (c.searching - 1 == 0))

/-- An operation stays within the field bounds of the packed word: the active
field is 48 bits wide, the searching field 16 bits, and a decrement requires a
positive count. -/
def RefCounts.okStep (c : RefCounts) : SleeperOp → Bool
  | .incActive => c.active + 1 < 2 ^ 48
  | .decActive => 0 < c.active
  | .incSearching => c.searching + 1 < 2 ^ 16
  | .decSearching => 0 < c.searching

/-- Every step of the sequence is within bounds. -/
def RefCounts.okSeq (c : RefCounts) : List SleeperOp → Bool
  | [] => true
  | op :: rest => c.okStep op && RefCounts.okSeq (c.apply op).1 rest

/-- Run a sequence of operations in the reference model, collecting the
boolean outputs. -/
def RefCounts.run (c : RefCounts) : List SleeperOp → RefCounts × List (Option Bool)
  | [] => (c, [])
  | op :: rest =>
      let p := c.apply op
      let q := RefCounts.run p.1 rest
      (q.1, p.2 :: q.2)

/-- One operation on the packed word, with the boolean output of the dec
operations. -/
def Record.applyOp (r : Record) : SleeperOp → Record × Option Bool
  | .incActive => (r.inc_active_num, none)
  | .decActive =>
      let p := r.dec_active_num
      (p.1, some p.2)
  | .incSearching => (r.inc_searching_num, none)
  | .decSearching =>
      let p := r.dec_searching_num
      (p.1, some p.2)

/-- Run a sequence of operations on the packed word, collecting the boolean
outputs. -/
def Record.run (r : Record) : List SleeperOp → Record × List (Option Bool)
  | [] => (r, [])
  | op :: rest =>
      let p := r.applyOp op
      let q := Record.run p.1 rest
      (q.1, p.2 :: q.2)

/-- The coupling between the reference counters and the packed word. -/
def RefCounts.encode (c : RefCounts) : Record :=
  ⟨c.active * 2 ^ 16 + c.searching⟩

/-! ### Arithmetic lemmas about the packed word -/

theorem shiftRight_land_distrib (x y k : Nat) :
    (x &&& y) >>> k = (x >>> k) &&& (y >>> k) :=
  Nat.eq_of_testBit_eq fun i => by
    simp [Nat.testBit_shiftRight, Nat.testBit_and]

theorem pow16_lit : (2 : Nat) ^ 16 = 65536 := by norm_num

theorem pow48_lit : (2 : Nat) ^ 48 = 281474976710656 := by norm_num

theorem pow64_lit : (2 : Nat) ^ 64 = 18446744073709551616 := by norm_num

theorem USIZE_lit : USIZE = 18446744073709551616 := by norm_num [USIZE]

theorem shift16_lit : (1 : Nat) <<< ACTIVE_WORKER_SHIFT = 65536 := by decide

theorem beq_congr (x a y b : Nat) (h : x = a ↔ y = b) : (x == a) = (y == b) := by
  cases hx : x == a <;> cases hy : y == b <;> simp_all

theorem packed_low (a s : Nat) (hs : s < 2 ^ 16) :
    (a * 2 ^ 16 + s) &&& SEARCHING_MASK = s := by
  have h1 : SEARCHING_MASK = 2 ^ 16 - 1 := by decide
  rw [h1, Nat.and_pow_two_sub_one_eq_mod]
  rw [pow16_lit] at hs ⊢
  omega

theorem packed_high (a s : Nat) (ha : a < 2 ^ 48) (hs : s < 2 ^ 16) :
    ((a * 2 ^ 16 + s) &&& ACTIVE_MASK) >>> ACTIVE_WORKER_SHIFT = a := by
  have h1 : ACTIVE_WORKER_SHIFT = 16 := rfl
  have h2 : ACTIVE_MASK >>> 16 = 2 ^ 48 - 1 := by decide
  rw [h1, shiftRight_land_distrib, h2, Nat.and_pow_two_sub_one_eq_mod,
    Nat.shiftRight_eq_div_pow]
  rw [pow16_lit] at hs ⊢
  rw [pow48_lit] at ha ⊢
  omega

theorem load_state_encode (c : RefCounts) (ha : c.active < 2 ^ 48)
    (hs : c.searching < 2 ^ 16) :
    c.encode.load_state = (c.active, c.searching) := by
  unfold RefCounts.encode Record.load_state
  simp only
  rw [packed_low _ _ hs, packed_high _ _ ha hs]

theorem step_coupling (c : RefCounts) (op : SleeperOp) (ha : c.active < 2 ^ 48)
    (hs : c.searching < 2 ^ 16) (hv : c.okStep op = true) :
    c.encode.applyOp op = ((c.apply op).1.encode, (c.apply op).2) := by
  have ha2 := ha
  have hs2 := hs
  rw [pow48_lit] at ha2
  rw [pow16_lit] at hs2
  cases op with
  | incActive =>
      simp only [RefCounts.okStep, decide_eq_true_eq, pow48_lit] at hv
      simp only [Record.applyOp, RefCounts.apply, Record.inc_active_num,
        RefCounts.encode, shift16_lit, USIZE_lit, pow16_lit, Prod.mk.injEq,
        Record.mk.injEq]
      exact ⟨by omega, trivial⟩
  | decActive =>
      simp only [RefCounts.okStep, decide_eq_true_eq] at hv
      have hfield := packed_high c.active c.searching ha hs
      rw [pow16_lit] at hfield
      simp only [Record.applyOp, RefCounts.apply, Record.dec_active_num,
        RefCounts.encode, USIZE_lit, shift16_lit, pow16_lit, Prod.mk.injEq,
        Record.mk.injEq, Option.some.injEq]
      refine ⟨by omega, ?_⟩
      rw [hfield]
      exact beq_congr _ _ _ _ (by omega)
  | incSearching =>
      simp only [RefCounts.okStep, decide_eq_true_eq, pow16_lit] at hv
      simp only [Record.applyOp, RefCounts.apply, Record.inc_searching_num,
        RefCounts.encode, USIZE_lit, pow16_lit, Prod.mk.injEq, Record.mk.injEq]
      exact ⟨by omega, trivial⟩
  | decSearching =>
      simp only [RefCounts.okStep, decide_eq_true_eq] at hv
      have hlow := packed_low c.active c.searching hs
      rw [pow16_lit] at hlow
      simp only [Record.applyOp, RefCounts.apply, Record.dec_searching_num,
        RefCounts.encode, USIZE_lit, pow16_lit, Prod.mk.injEq, Record.mk.injEq,
        Option.some.injEq]
      refine ⟨by omega, ?_⟩
      rw [hlow]
      exact beq_congr _ _ _ _ (by omega)

theorem okSeq_bounds_run (ops : List SleeperOp) :
    ∀ c : RefCounts, c.active < 2 ^ 48 → c.searching < 2 ^ 16 →
      c.okSeq ops = true →
      Record.run c.encode ops = ((c.run ops).1.encode, (c.run ops).2) ∧
      (c.run ops).1.active < 2 ^ 48 ∧ (c.run ops).1.searching < 2 ^ 16 := by
  induction ops with
  | nil =>
      intro c ha hs _
      exact ⟨rfl, ha, hs⟩
  | cons op rest ih =>
      intro c ha hs hok
      have ha2 := ha
      have hs2 := hs
      rw [pow48_lit] at ha2
      rw [pow16_lit] at hs2
      have hok1 : c.okStep op = true ∧ RefCounts.okSeq (c.apply op).1 rest = true := by
        simpa [RefCounts.okSeq, Bool.and_eq_true] using hok
      have hbounds : (c.apply op).1.active < 2 ^ 48 ∧ (c.apply op).1.searching < 2 ^ 16 := by
        cases op <;>
          simp only [RefCounts.apply, RefCounts.okStep, decide_eq_true_eq,
            pow16_lit, pow48_lit] at hok1 ⊢ <;>
          omega
      have hstep := step_coupling c op ha hs hok1.1
      have hrest := ih (c.apply op).1 hbounds.1 hbounds.2 hok1.2
      constructor
      · show Record.run c.encode (op :: rest) = _
        simp only [Record.run, RefCounts.run, hstep]
        rw [hrest.1]
      · simpa [RefCounts.run] using hrest.2

/-- Claim C4: the packed sleeper word refines the reference model of two
separate counters. For every in-bound sequence of
inc_active_num / dec_active_num / inc_searching_num / dec_searching_num
operations starting from `Record::new(n)`, the run on the packed word
produces exactly the boolean outputs of the reference model (dec_active_num
returns true iff active transitioned to 0, dec_searching_num returns true iff
searching transitioned to 0), and `load_state` of the final word is exactly
the final (active, searching) pair of the reference model. -/
theorem c4_record_refines_counters (n : Nat) (ops : List SleeperOp)
    (hn : n < 2 ^ 48) (hok : RefCounts.okSeq ⟨n, 0⟩ ops = true) :
    (Record.run (Record.new n) ops).2 = (RefCounts.run ⟨n, 0⟩ ops).2 ∧
    (Record.run (Record.new n) ops).1.load_state =
      ((RefCounts.run ⟨n, 0⟩ ops).1.active, (RefCounts.run ⟨n, 0⟩ ops).1.searching) := by
  have hnew : Record.new n = RefCounts.encode ⟨n, 0⟩ := by
    unfold Record.new RefCounts.encode
    simp only [Record.mk.injEq]
    have h1 : n <<< ACTIVE_WORKER_SHIFT = n * 2 ^ 16 := by
      simp [Nat.shiftLeft_eq, ACTIVE_WORKER_SHIFT]
    rw [h1]
    have h2 : n * 2 ^ 16 < USIZE := by
      rw [USIZE_lit, pow16_lit]
      rw [pow48_lit] at hn
      omega
    rw [Nat.mod_eq_of_lt h2]
    omega
  have hmain := okSeq_bounds_run ops ⟨n, 0⟩ hn (by norm_num) hok
  rw [hnew, hmain.1]
  refine ⟨rfl, ?_⟩
  exact load_state_encode _ hmain.2.1 hmain.2.2

/-- Claim C4 witness: a concrete in-bound run, through the theorem itself. -/
theorem c4_record_refines_counters_witness :
    (Record.run (Record.new 4)
        [SleeperOp.incSearching, SleeperOp.decActive, SleeperOp.decSearching]).2 =
      (RefCounts.run ⟨4, 0⟩
        [SleeperOp.incSearching, SleeperOp.decActive, SleeperOp.decSearching]).2 :=
  (c4_record_refines_counters 4
    [SleeperOp.incSearching, SleeperOp.decActive, SleeperOp.decSearching]
    (by norm_num) (by decide)).1

/-- Claim C3: `try_inc_searching_num` succeeds iff the observed state
satisfies `searching * 2 < active`; on success the word is incremented by one
(the searching field), otherwise it is unchanged; and starting from 4 active
workers and 0 searching, of three successive calls the first two succeed and
the third fails. -/
theorem c3_try_inc_searching :
    (∀ r : Record,
      ((Sleeper.try_inc_searching_num r).2 = true ↔
        (r.load_state).2 * 2 < (r.load_state).1) ∧
      ((Sleeper.try_inc_searching_num r).2 = true →
        (Sleeper.try_inc_searching_num r).1 = r.inc_searching_num) ∧
      ((Sleeper.try_inc_searching_num r).2 = false →
        (Sleeper.try_inc_searching_num r).1 = r)) ∧
    ((Sleeper.try_inc_searching_num (Record.new 4)).2 = true ∧
      (Sleeper.try_inc_searching_num
        (Sleeper.try_inc_searching_num (Record.new 4)).1).2 = true ∧
      (Sleeper.try_inc_searching_num
        (Sleeper.try_inc_searching_num
          (Sleeper.try_inc_searching_num (Record.new 4)).1).1).2 = false) := by
  constructor
  · intro r
    refine ⟨?_, ?_, ?_⟩
    · unfold Sleeper.try_inc_searching_num
      by_cases h : (r.load_state).2 * 2 < (r.load_state).1 <;> simp [h]
    · intro h
      unfold Sleeper.try_inc_searching_num at h ⊢
      by_cases hc : (r.load_state).2 * 2 < (r.load_state).1 <;> simp [hc] at h ⊢
    · intro h
      unfold Sleeper.try_inc_searching_num at h ⊢
      by_cases hc : (r.load_state).2 * 2 < (r.load_state).1 <;> simp [hc] at h ⊢
  · refine ⟨by decide, by decide, by decide⟩

/-- Claim C3 witness: the first call from 4 active / 0 searching succeeds,
through the theorem itself. -/
theorem c3_try_inc_searching_witness :
    (Sleeper.try_inc_searching_num (Record.new 4)).1 =
      (Record.new 4).inc_searching_num :=
  (c3_try_inc_searching.1 (Record.new 4)).2.1 (by decide)

/-! ## TcpSocket::connect (src/ylong_io/src/sys/unix/tcp/socket.rs) -/

/-- `libc::EINPROGRESS` on Linux. -/
def EINPROGRESS : Int := 115

/-- An `std::io::Error`, observed through `raw_os_error()`: errors produced by
the `syscall!` macro always carry the kernel errno, but the type admits
errors without one. -/
structure OsError where
  raw_os_error : Option Int
deriving DecidableEq, Repr

/-- `TcpStream { inner }` wrapping a socket file descriptor. -/
structure TcpStream where
  inner : Int
deriving DecidableEq, Repr

/-- `TcpSocket::connect`: builds the stream around the socket fd, issues the
kernel `connect` call (whose outcome is the `res` argument), and returns
`Err(err)` only when the error is not `EINPROGRESS`; otherwise the stream. -/
def TcpSocket.connect (socket : Int) (res : Except OsError Unit) :
    Except OsError TcpStream :=
  let stream : TcpStream := ⟨socket⟩
  match res with
  | .error err => if err.raw_os_error ≠ some EINPROGRESS then .error err else .ok stream
  | .ok _ => .ok stream

/-- Claim C10: `TcpSocket::connect` treats an in-progress non-blocking
connection as success — when the kernel connect call succeeds or fails with
errno EINPROGRESS, connect returns Ok with the TcpStream wrapping the socket
fd; for every other kernel error it returns that error. -/
theorem c10_connect_einprogress (socket : Int) (res : Except OsError Unit) :
    (res = .ok () → TcpSocket.connect socket res = .ok ⟨socket⟩) ∧
    (∀ err : OsError, res = .error err → err.raw_os_error = some EINPROGRESS →
      TcpSocket.connect socket res = .ok ⟨socket⟩) ∧
    (∀ err : OsError, res = .error err → err.raw_os_error ≠ some EINPROGRESS →
      TcpSocket.connect socket res = .error err) := by
  refine ⟨?_, ?_, ?_⟩
  · intro h
    subst h
    rfl
  · intro err h he
    subst h
    simp [TcpSocket.connect, he]
  · intro err h he
    subst h
    simp [TcpSocket.connect, he]

/-- Claim C10 witness: concrete outcomes, through the theorem itself. -/
theorem c10_connect_einprogress_witness :
    TcpSocket.connect 7 (.error ⟨some EINPROGRESS⟩) = .ok ⟨7⟩ ∧
    TcpSocket.connect 7 (.error ⟨some 111⟩) = .error ⟨some 111⟩ :=
  ⟨(c10_connect_einprogress 7 (.error ⟨some EINPROGRESS⟩)).2.1 ⟨some EINPROGRESS⟩ rfl rfl,
   (c10_connect_einprogress 7 (.error ⟨some 111⟩)).2.2 ⟨some 111⟩ rfl (by decide)⟩

/-! ## Async file state machine (src/ylong_runtime/src/fs/async_file.rs) -/

/-- An `std::io::ErrorKind`, abstracted to a code. -/
abbrev ErrorKind := Nat

/-- A seek error code used by the physical-file model. -/
def EINVAL : ErrorKind := 22

/-- `std::io::SeekFrom`. `End` is a reserved word in Lean, hence `endPos`. -/
inductive SeekFrom where
  | start (n : Nat)
  | endPos (n : Int)
  | current (n : Int)
deriving DecidableEq, Repr

/-- Modelled from the spec: `FileBuf` (src/ylong_runtime/src/fs/file_buf.rs is
not among the sources; only its call sites in async_file.rs are). Per the
spec, the buffer holds the unread read-ahead bytes left over from the last
blocking read (or the bytes pending for a write job), plus the capacity
reserved for the next blocking read. -/
structure FileBuf where
  data : List Nat
  cap : Nat
deriving DecidableEq, Repr

/-- Modelled from the spec: `FileBuf::remaining` — the number of unread bytes
currently in the buffer. -/
def FileBuf.remaining (b : FileBuf) : Nat := b.data.length

/-- Modelled from the spec: `FileBuf::drop_unread` — drop the unread bytes
and return how many there were (as `i64` in the source; the call sites
`seek(SeekFrom::Current(-unread))` in `poll_write` and `*idx -= unread` in
`poll_seek` fix the sign as the positive count). -/
def FileBuf.drop_unread (b : FileBuf) : Nat × FileBuf :=
  (b.data.length, ⟨[], b.cap⟩)

/-- Modelled from the spec: `FileBuf::append(buf, limit)` — append at most
`limit` bytes of `buf` into the buffer, returning the appended count. -/
def FileBuf.append (b : FileBuf) (payload : List Nat) (limit : Nat) :
    FileBuf × Nat :=
  let n := min payload.length limit
  (⟨b.data ++ payload.take n, b.cap⟩, n)

/-- Modelled from the spec: `FileBuf::reserve(requested, limit)` — grow the
buffer capacity for the next read by at most `min requested limit`. -/
def FileBuf.reserve (b : FileBuf) (requested limit : Nat) : FileBuf :=
  ⟨b.data, min requested limit⟩

/-- The caller-provided `ReadBuf`: filled bytes plus total capacity. -/
structure ReadBuf where
  filled : List Nat
  capacity : Nat
deriving DecidableEq, Repr

/-- Free space left in a `ReadBuf`. -/
def ReadBuf.remaining (r : ReadBuf) : Nat := r.capacity - r.filled.length

/-- Modelled from the spec: `FileBuf::append_to(read_buf)` — move as many
unread bytes as fit into the caller's read buffer. -/
def FileBuf.append_to (b : FileBuf) (r : ReadBuf) : FileBuf × ReadBuf :=
  let n := min b.data.length r.remaining
  (⟨b.data.drop n, b.cap⟩, ⟨r.filled ++ b.data.take n, r.capacity⟩)

/-- The physical file shared behind the `Arc<SyncFile>`: its byte content
and its cursor. -/
structure PhysFile where
  data : List Nat
  cursor : Nat
deriving DecidableEq, Repr

/-- `Seek::seek` on the physical file: compute the target position, fail
with EINVAL when it is negative, otherwise move the cursor and return the
new position. -/
def PhysFile.seek (f : PhysFile) (pos : SeekFrom) :
    Except ErrorKind (PhysFile × Nat) :=
  let target : Int :=
    match pos with
    | .start n => (n : Int)
    | .endPos k => (f.data.length : Int) + k
    | .current k => (f.cursor : Int) + k
  if target < 0 then .error EINVAL
  else .ok ({ f with cursor := target.toNat }, target.toNat)

/-- Write `payload` at the cursor of the physical file: overwrite, zero-fill
any gap beyond the end, and advance the cursor. -/
def PhysFile.write_at (f : PhysFile) (payload : List Nat) : PhysFile :=
  { data := f.data.take f.cursor
      ++ List.replicate (f.cursor - f.data.length) 0
      ++ payload
      ++ f.data.drop (f.cursor + payload.length),
    cursor := f.cursor + payload.length }

/-- `File::set_len` on the physical file: truncate or zero-extend the
content to `size`; the cursor is not changed. -/
def PhysFile.set_len (f : PhysFile) (size : Nat) : PhysFile :=
  if size ≤ f.data.length then { f with data := f.data.take size }
  else { f with data := f.data ++ List.replicate (size - f.data.length) 0 }

/-- Modelled from the spec: `FileBuf::write` — write the buffered bytes to
the file and consume them from the buffer. -/
def FileBuf.write (b : FileBuf) (f : PhysFile) :
    PhysFile × FileBuf × Except ErrorKind Unit :=
  (f.write_at b.data, ⟨[], b.cap⟩, .ok ())

/-- The closure spawned by `poll_write`: if there were unread read-ahead
bytes, first seek the file backward by that amount (`SeekFrom::Current(-unread)`),
returning the seek error with the untouched buffer on failure; then write the
buffer. -/
def runWriteJob (unread : Nat) (buf : FileBuf) (f : PhysFile) :
    PhysFile × FileBuf × Except ErrorKind Unit :=
  if unread ≠ 0 then
    match f.seek (.current (-(unread : Int))) with
    | .error e => (f, buf, .error e)
    | .ok q => buf.write q.1
  else buf.write f

/-- The closure spawned by `File::set_len`: the source seeks by
`SeekFrom::Current(buf.drop_unread())` and then truncates only when
`buf.remaining() == 0`; in the branch with unread read-ahead it calls
`set_len` alone. -/
def setLenTask (buf : FileBuf) (size : Nat) (f : PhysFile) :
    PhysFile × FileBuf × Except ErrorKind Nat :=
  if buf.remaining == 0 then
    let p := buf.drop_unread
    match f.seek (.current (p.1 : Int)) with
    | .error e => (f, p.2, .error e)
    | .ok q => (q.1.set_len size, p.2, .ok 0)
  else
    (f.set_len size, buf, .ok 0)

/-- A blocking job as spawned by the state machine: what the closure
captures. -/
inductive JobDesc where
  | readJob (buf : FileBuf)
  | writeJob (unread : Nat) (buf : FileBuf)
  | seekJob (buf : FileBuf) (pos : SeekFrom)
deriving DecidableEq, Repr

/-- `enum FileState { Idle(Option<FileBuf>), Reading(..), Writing(..),
Seeking(..) }`; the job variants hold the in-flight `JoinHandle`, embedded
as the job description. -/
inductive FileState where
  | idle (buf : Option FileBuf)
  | reading (job : JobDesc)
  | writing (job : JobDesc)
  | seeking (job : JobDesc)
deriving DecidableEq, Repr

/-- `struct FileInner { state, write_err, idx }`. -/
structure FileInner where
  state : FileState
  write_err : Option ErrorKind
  idx : Nat
deriving DecidableEq, Repr

deriving instance DecidableEq for Except

/-- One poll of an in-flight `JoinHandle`, as chosen by the environment:
either the job is still pending, or it completed with `(buffer, result)` —
read/write jobs yield an `io::Result<()>`, seek jobs an `io::Result<u64>`. -/
inductive JobOutcome where
  | pending
  | rwDone (buf : FileBuf) (res : Except ErrorKind Unit)
  | seekDone (buf : FileBuf) (res : Except ErrorKind Nat)
deriving DecidableEq, Repr

/-- Outcome of one poll call: `Poll::Ready`, `Poll::Pending`, or a panic
(`unreachable!` / `Option::unwrap` on `None` in the source). -/
inductive PollRes (α : Type) where
  | ready (a : α)
  | pending
  | panicked
deriving DecidableEq, Repr

/-- Well-formedness of the file state: in any `Idle` state the buffer
option is `Some`. -/
def FileState.wfB : FileState → Bool
  | .idle none => false
  | _ => true

/-- Result of `poll_read`. -/
structure ReadOut where
  inner : FileInner
  rbuf : ReadBuf
  out : PollRes (Except ErrorKind Unit)
  spawned : List JobDesc
deriving DecidableEq, Repr

/-- Result of `poll_write`. -/
structure WriteOut where
  inner : FileInner
  out : PollRes (Except ErrorKind Nat)
  spawned : List JobDesc
deriving DecidableEq, Repr

/-- Result of `poll_seek`. -/
structure SeekOut where
  inner : FileInner
  out : PollRes (Except ErrorKind Nat)
  spawned : List JobDesc
deriving DecidableEq, Repr

/-- The `FileState::Reading` arm of `poll_read`: poll the handle; on
completed `Ok` append the filled buffer to the caller's read buffer, on
completed `Err` hand the error out; either way restore `Idle(Some(buf))`.
On a pending handle the state keeps (or becomes) `Reading(j)` and
`Poll::Pending` propagates (`poll_ready!`). -/
def readJobPoll (inner : FileInner) (rbuf : ReadBuf) (j : JobDesc)
    (o : JobOutcome) : ReadOut :=
  match o with
  | .rwDone buf (.ok _) =>
      let p := buf.append_to rbuf
      ⟨{ inner with state := .idle (some p.1) }, p.2, .ready (.ok ()), []⟩
  | .rwDone buf (.error e) =>
      ⟨{ inner with state := .idle (some buf) }, rbuf, .ready (.error e), []⟩
  | _ => ⟨{ inner with state := .reading j }, rbuf, .pending, []⟩

/-- `<File as AsyncRead>::poll_read`, lines 526..587 of async_file.rs.
The oracle list supplies one `JobOutcome` per poll of an in-flight handle;
an exhausted oracle leaves the handle pending. -/
def poll_read (limit : Nat) :
    List JobOutcome → FileInner → ReadBuf → ReadOut
  | oracle, inner, rbuf =>
    match inner.state, oracle with
    | .idle none, _ => ⟨inner, rbuf, .panicked, []⟩
    | .idle (some r), oracle =>
        if r.remaining ≠ 0 then
          -- remaining data from the last read: append it to the read buf
          let p := r.append_to rbuf
          ⟨{ inner with state := .idle (some p.1) }, p.2, .ready (.ok ()), []⟩
        else
          let r1 := r.reserve rbuf.remaining limit
          let job := JobDesc.readJob r1
          -- state transition; the loop then polls the fresh handle
          match oracle with
          | [] => ⟨{ inner with state := .reading job }, rbuf, .pending, [job]⟩
          | o :: _ =>
              let t := readJobPoll { inner with state := .reading job } rbuf job o
              ⟨t.inner, t.rbuf, t.out, [job]⟩
    | .reading _, [] => ⟨inner, rbuf, .pending, []⟩
    | .reading j, o :: _ => readJobPoll inner rbuf j o
    | .writing _, [] => ⟨inner, rbuf, .pending, []⟩
    | .writing _, .rwDone buf res :: rest =>
        -- save the error for the next write, restore Idle, loop
        let we := match res with
          | .error e => some e
          | .ok _ => inner.write_err
        poll_read limit rest
          { inner with state := .idle (some buf), write_err := we } rbuf
    | .writing _, .pending :: _ => ⟨inner, rbuf, .pending, []⟩
    | .writing _, .seekDone _ _ :: _ => ⟨inner, rbuf, .pending, []⟩
    | .seeking _, [] => ⟨inner, rbuf, .pending, []⟩
    | .seeking _, .seekDone buf res :: rest =>
        -- update idx on success, restore Idle, loop
        let ix := match res with
          | .ok p => p
          | .error _ => inner.idx
        poll_read limit rest
          { inner with state := .idle (some buf), idx := ix } rbuf
    | .seeking _, .pending :: _ => ⟨inner, rbuf, .pending, []⟩
    | .seeking _, .rwDone _ _ :: _ => ⟨inner, rbuf, .pending, []⟩

/-- The inner loop of `<File as AsyncWrite>::poll_write` (lines 602..634):
run after the sticky-error check. In the `Idle` arm the buffer drops its
unread bytes, appends the payload capped by the limit, spawns the write job
and returns `Ready(Ok(n))` at once. In the job arms the handle is polled;
only a `Writing` error is surfaced; `Pending` falls through and the loop
spins (the source's `if let Poll::Ready(Err(e))` does not return on
`Pending`). -/
def pollWriteLoop (limit : Nat) (payload : List Nat) :
    List JobOutcome → FileInner → WriteOut
  | oracle, inner =>
    match inner.state, oracle with
    | .idle none, _ => ⟨inner, .panicked, []⟩
    | .idle (some w), _ =>
        let p := w.drop_unread
        let q := p.2.append payload limit
        let job := JobDesc.writeJob p.1 q.1
        ⟨{ inner with state := .writing job }, .ready (.ok q.2), [job]⟩
    | .writing _, [] => ⟨inner, .pending, []⟩
    | .writing _, .rwDone buf (.error e) :: _ =>
        ⟨{ inner with state := .idle (some buf) }, .ready (.error e), []⟩
    | .writing _, .rwDone buf (.ok _) :: rest =>
        pollWriteLoop limit payload rest
          { inner with state := .idle (some buf) }
    | .writing _, .pending :: rest => pollWriteLoop limit payload rest inner
    | .writing _, .seekDone _ _ :: rest => pollWriteLoop limit payload rest inner
    | .reading _, [] => ⟨inner, .pending, []⟩
    | .reading _, .rwDone buf _ :: rest =>
        -- a Reading job's error is dropped in poll_write
        pollWriteLoop limit payload rest
          { inner with state := .idle (some buf) }
    | .reading _, .pending :: rest => pollWriteLoop limit payload rest inner
    | .reading _, .seekDone _ _ :: rest => pollWriteLoop limit payload rest inner
    | .seeking _, [] => ⟨inner, .pending, []⟩
    | .seeking _, .seekDone buf _ :: rest =>
        -- a Seeking job's result is dropped in poll_write (no idx update)
        pollWriteLoop limit payload rest
          { inner with state := .idle (some buf) }
    | .seeking _, .pending :: rest => pollWriteLoop limit payload rest inner
    | .seeking _, .rwDone _ _ :: rest => pollWriteLoop limit payload rest inner

/-- `<File as AsyncWrite>::poll_write` (lines 590..635): surface a sticky
`write_err` first, without touching it or the state; otherwise run the
loop. -/
def poll_write (limit : Nat) (payload : List Nat) (oracle : List JobOutcome)
    (inner : FileInner) : WriteOut :=
  match inner.write_err with
  | some e => ⟨inner, .ready (.error e), []⟩
  | none => pollWriteLoop limit payload oracle inner

/-- The `FileState::Seeking` arm of `poll_seek`: poll the handle; on
completion update `idx` on success and return the result; `Pending`
propagates (`poll_ready!`). -/
def seekJobPoll (inner : FileInner) (j : JobDesc) (o : JobOutcome) : SeekOut :=
  match o with
  | .seekDone buf res =>
      let ix := match res with
        | .ok p => p
        | .error _ => inner.idx
      ⟨{ inner with state := .idle (some buf), idx := ix }, .ready res, []⟩
  | _ => ⟨{ inner with state := .seeking j }, .pending, []⟩

/-- `<File as AsyncSeek>::poll_seek` (lines 473..522). In the `Idle` arm the
unread read-ahead is dropped and subtracted from a `SeekFrom::Current`
position, the seek job is spawned, and the loop polls the fresh handle.
Completed `Reading` jobs are discarded, completed `Writing` errors are saved
into `write_err`, and the loop continues from `Idle`. -/
def poll_seek :
    List JobOutcome → FileInner → SeekFrom → SeekOut
  | oracle, inner, pos =>
    match inner.state, oracle with
    | .idle none, _ => ⟨inner, .panicked, []⟩
    | .idle (some r), oracle =>
        let p := r.drop_unread
        let pos1 := if p.1 ≠ 0 then
            match pos with
            | .current k => SeekFrom.current (k - (p.1 : Int))
            | q => q
          else pos
        let job := JobDesc.seekJob p.2 pos1
        let inner1 := { inner with state := .seeking job }
        match oracle with
        | [] => ⟨inner1, .pending, [job]⟩
        | o :: _ =>
            let t := seekJobPoll inner1 job o
            ⟨t.inner, t.out, [job]⟩
    | .seeking _, [] => ⟨inner, .pending, []⟩
    | .seeking j, o :: _ => seekJobPoll inner j o
    | .reading _, [] => ⟨inner, .pending, []⟩
    | .reading _, .rwDone buf _ :: rest =>
        poll_seek rest { inner with state := .idle (some buf) } pos
    | .reading _, .pending :: _ => ⟨inner, .pending, []⟩
    | .reading _, .seekDone _ _ :: _ => ⟨inner, .pending, []⟩
    | .writing _, [] => ⟨inner, .pending, []⟩
    | .writing _, .rwDone buf res :: rest =>
        let we := match res with
          | .error e => some e
          | .ok _ => inner.write_err
        poll_seek rest
          { inner with state := .idle (some buf), write_err := we } pos
    | .writing _, .pending :: _ => ⟨inner, .pending, []⟩
    | .writing _, .seekDone _ _ :: _ => ⟨inner, .pending, []⟩

/-- `FileInner::poll_flush` (lines 653..670): surface a sticky `write_err`
first; in `Idle` report `Ok` at once; otherwise poll the single in-flight
handle once — only a `Writing` job's result is reported, completed
`Reading`/`Seeking` results are dropped (and `idx` is not updated). -/
def poll_flush (oracle : List JobOutcome) (inner : FileInner) :
    FileInner × PollRes (Except ErrorKind Unit) :=
  match inner.write_err with
  | some e => (inner, .ready (.error e))
  | none =>
    match inner.state with
    | .idle _ => (inner, .ready (.ok ()))
    | .writing _ =>
        match oracle with
        | .rwDone buf res :: _ =>
            ({ inner with state := .idle (some buf) },
              .ready (res.map fun _ => ()))
        | _ => (inner, .pending)
    | .reading _ =>
        match oracle with
        | .rwDone buf _ :: _ =>
            ({ inner with state := .idle (some buf) }, .ready (.ok ()))
        | _ => (inner, .pending)
    | .seeking _ =>
        match oracle with
        | .seekDone buf _ :: _ =>
            ({ inner with state := .idle (some buf) }, .ready (.ok ()))
        | _ => (inner, .pending)

/-- `FileInner::flush` (lines 647..651): drive `poll_flush`; a reported
error is recorded into `write_err`. The boolean is true when the flush
completed (the await finished under the given oracle). -/
def FileInner.flush (oracle : List JobOutcome) (inner : FileInner) :
    FileInner × Bool :=
  match poll_flush oracle inner with
  | (i1, .ready (.error e)) => ({ i1 with write_err := some e }, true)
  | (i1, .ready (.ok _)) => (i1, true)
  | (i1, _) => (i1, false)

/-- Result of `set_len`. -/
structure SetLenOut where
  inner : FileInner
  phys : PhysFile
  out : PollRes (Except ErrorKind Unit)
deriving DecidableEq, Repr

/-- `File::set_len` (lines 278..307): lock, flush, take the buffer out of the
`Idle` state (`unreachable!` otherwise), run the blocking `setLenTask`,
restore `Idle(Some(buf))` and on success store the task's `0` into `idx`.
When the oracle does not complete the flush the await is still outstanding
(`pending`). -/
def set_len (oracle : List JobOutcome) (inner : FileInner) (size : Nat)
    (phys : PhysFile) : SetLenOut :=
  match FileInner.flush oracle inner with
  | (i1, false) => ⟨i1, phys, .pending⟩
  | (i1, true) =>
    match i1.state with
    | .idle (some buf) =>
        let t := setLenTask buf size phys
        let i2 := { i1 with state := .idle (some t.2.1) }
        match t.2.2 with
        | .ok u => ⟨{ i2 with idx := u }, t.1, .ready (.ok ())⟩
        | .error e => ⟨i2, t.1, .ready (.error e)⟩
    | _ => ⟨i1, phys, .panicked⟩

/-- Number of clones of the shared `Arc<SyncFile>` held by in-flight
blocking jobs: each spawned job captures one clone and releases it when its
closure finishes, which the state machine observes when the job variant is
reaped back to `Idle`. -/
def FileState.jobClones : FileState → Nat
  | .idle _ => 0
  | _ => 1

/-- The user-facing `File`: the shared handle to the physical file plus the
mutex-protected inner state. -/
structure File where
  file : PhysFile
  inner : FileInner
deriving DecidableEq, Repr

/-- `Arc::strong_count` of `File::file`: the envelope's own reference plus
the clones held by in-flight jobs. -/
def File.arcStrongCount (f : File) : Nat := 1 + f.inner.state.jobClones

/-- `File::try_into_std` (lines 411..419): `Arc::try_unwrap` — succeed iff
the envelope holds the only reference; otherwise restore `self.file` and
hand the whole `File` back as the error. -/
def File.try_into_std (f : File) : Except File PhysFile :=
  if f.arcStrongCount = 1 then .ok f.file else .error f

/-- `File::into_std` (lines 388..392): flush, then
`Arc::try_unwrap(self.file).expect(..)` — `none` models the panic (or a
flush that has not completed yet), `some` the successful unwrap. -/
def File.into_std (oracle : List JobOutcome) (f : File) : Option PhysFile :=
  let fl := FileInner.flush oracle f.inner
  let f1 : File := { f with inner := fl.1 }
  if fl.2 = true ∧ f1.arcStrongCount = 1 then some f1.file else none

/-! ## Claims about the file state machine -/

/-- Claim C1 (evaluation at the failing input): after a blocking write failed
with kind 5, `write_err` is `Some(5)` and `poll_write` returns `Err(5)`
without spawning a job and without clearing `write_err` — the source reads
the field with `if let Some(e) = inner.write_err` and never takes or resets
it — so the second `poll_write` returns `Err(5)` again instead of
proceeding normally, and `poll_flush` keeps reporting it too. -/
theorem c1_write_err_not_cleared :
    poll_write 10 [1, 2, 3] [] ⟨.idle (some ⟨[], 0⟩), some 5, 0⟩ =
      ⟨⟨.idle (some ⟨[], 0⟩), some 5, 0⟩, .ready (.error 5), []⟩ ∧
    poll_write 10 [1, 2, 3] []
        (poll_write 10 [1, 2, 3] [] ⟨.idle (some ⟨[], 0⟩), some 5, 0⟩).inner =
      ⟨⟨.idle (some ⟨[], 0⟩), some 5, 0⟩, .ready (.error 5), []⟩ ∧
    poll_flush [] ⟨.idle (some ⟨[], 0⟩), some 5, 0⟩ =
      (⟨.idle (some ⟨[], 0⟩), some 5, 0⟩, .ready (.error 5)) :=
  ⟨rfl, rfl, rfl⟩

/-- Claim C2 (evaluation at the failing input): with 3 unread read-ahead
bytes in the buffer, the blocking closure of `set_len` never seeks — the
source guards the seek with `buf.remaining() == 0`, in which branch
`drop_unread()` returns 0, so with read-ahead present the underlying file is
truncated with its cursor left at 9 instead of being seeked back by 3 first;
the whole `set_len` path returns Ok with the cursor untouched and the
read-ahead still in the buffer. -/
theorem c2_set_len_skips_seek_back :
    setLenTask ⟨[10, 20, 30], 0⟩ 4 ⟨[0, 1, 2, 3, 4, 5, 6, 7, 8], 9⟩ =
      (⟨[0, 1, 2, 3], 9⟩, ⟨[10, 20, 30], 0⟩, .ok 0) ∧
    set_len [] ⟨.idle (some ⟨[10, 20, 30], 0⟩), none, 7⟩ 4
        ⟨[0, 1, 2, 3, 4, 5, 6, 7, 8], 9⟩ =
      ⟨⟨.idle (some ⟨[10, 20, 30], 0⟩), none, 0⟩, ⟨[0, 1, 2, 3], 9⟩,
        .ready (.ok ())⟩ :=
  ⟨by decide, by decide⟩


/-- Claim C6: from Idle with no sticky error, `poll_write` appends at most
`buf_size_limit` bytes of the input into the buffer, returns `Ready(Ok(n))`
immediately with n the number of appended bytes, and spawns exactly one
blocking write job which, when the buffer held unread read-ahead bytes,
first seeks the underlying file backward by exactly that many bytes before
writing the buffer. -/
theorem c6_write_path (limit : Nat) (payload : List Nat)
    (oracle : List JobOutcome) (inner : FileInner) (w : FileBuf)
    (hs : inner.state = .idle (some w)) (he : inner.write_err = none) :
    poll_write limit payload oracle inner =
      ⟨{ inner with state := FileState.writing (JobDesc.writeJob w.remaining ⟨payload.take (min payload.length limit), w.cap⟩) },
        .ready (.ok (min payload.length limit)),
        [JobDesc.writeJob w.remaining ⟨payload.take (min payload.length limit), w.cap⟩]⟩ ∧
    min payload.length limit ≤ limit ∧
    (∀ f : PhysFile, w.remaining ≤ f.cursor →
      runWriteJob w.remaining ⟨payload.take (min payload.length limit), w.cap⟩ f =
        FileBuf.write ⟨payload.take (min payload.length limit), w.cap⟩
          { f with cursor := f.cursor - w.remaining }) := by
  obtain ⟨st, we, ix⟩ := inner
  change st = _ at hs
  change we = _ at he
  subst hs
  subst he
  refine ⟨?_, Nat.min_le_right _ _, ?_⟩
  · simp [poll_write, pollWriteLoop, FileBuf.drop_unread, FileBuf.append,
      FileBuf.remaining]
  · intro f hc
    unfold runWriteJob
    by_cases hu : w.remaining = 0
    · simp only [hu, ne_eq, not_true_eq_false, if_false]
      have h0 : f.cursor - 0 = f.cursor := rfl
      simp [h0]
    · simp only [hu, ne_eq, not_false_eq_true, if_true]
      have ht : ¬ ((f.cursor : Int) + -(w.remaining : Int) < 0) := by omega
      simp only [PhysFile.seek, ht, if_false]
      have h2 : ((f.cursor : Int) + -(w.remaining : Int)).toNat =
          f.cursor - w.remaining := by omega
      rw [h2]


/-- Claim C6 witness: a concrete idle write, through the theorem itself. -/
theorem c6_write_path_witness :
    poll_write 2 [7, 8, 9] [] ⟨.idle (some ⟨[4], 3⟩), none, 0⟩ =
      ⟨⟨.writing (.writeJob 1 ⟨[7, 8], 3⟩), none, 0⟩,
        .ready (.ok 2), [.writeJob 1 ⟨[7, 8], 3⟩]⟩ :=
  (c6_write_path 2 [7, 8, 9] [] ⟨.idle (some ⟨[4], 3⟩), none, 0⟩ ⟨[4], 3⟩
    rfl rfl).1


/-- Claim C7: from Idle, when the buffer has unread bytes `poll_read` moves
them into the caller's buffer and returns `Ready(Ok(()))` with no job
spawned; when the buffer is empty it is grown by at most
`min(requested, buf_size_limit)` and exactly one blocking read job with
that capacity is spawned. -/
theorem c7_read_path (limit : Nat) (oracle : List JobOutcome)
    (inner : FileInner) (r : FileBuf) (rbuf : ReadBuf)
    (hs : inner.state = .idle (some r)) :
    (r.remaining ≠ 0 →
      poll_read limit oracle inner rbuf =
        ⟨{ inner with state := FileState.idle (some ⟨r.data.drop (min r.data.length rbuf.remaining), r.cap⟩) },
          ⟨rbuf.filled ++ r.data.take (min r.data.length rbuf.remaining),
            rbuf.capacity⟩,
          .ready (.ok ()), []⟩) ∧
    (r.remaining = 0 →
      (poll_read limit oracle inner rbuf).spawned =
        [.readJob ⟨r.data, min rbuf.remaining limit⟩]) := by
  obtain ⟨st, we, ix⟩ := inner
  change st = _ at hs
  subst hs
  constructor
  · intro hr
    change r.data.length ≠ 0 at hr
    simp [poll_read, FileBuf.append_to, FileBuf.remaining, hr]
  · intro hr
    change r.data.length = 0 at hr
    cases oracle with
    | nil => simp [poll_read, FileBuf.reserve, FileBuf.remaining, hr]
    | cons o rest =>
        cases o with
        | pending => simp [poll_read, readJobPoll, FileBuf.reserve, FileBuf.remaining, hr]
        | rwDone buf res =>
            cases res with
            | ok u => simp [poll_read, readJobPoll, FileBuf.reserve, FileBuf.remaining, hr]
            | error e => simp [poll_read, readJobPoll, FileBuf.reserve, FileBuf.remaining, hr]
        | seekDone buf res => simp [poll_read, readJobPoll, FileBuf.reserve, FileBuf.remaining, hr]


/-- Claim C7 witness: both read paths at concrete inputs, through the
theorem itself. -/
theorem c7_read_path_witness :
    poll_read 8 [] ⟨.idle (some ⟨[5, 6], 1⟩), none, 0⟩ ⟨[], 4⟩ =
      ⟨⟨.idle (some ⟨[], 1⟩), none, 0⟩, ⟨[5, 6], 4⟩, .ready (.ok ()), []⟩ ∧
    (poll_read 8 [] ⟨.idle (some ⟨[], 1⟩), none, 0⟩ ⟨[], 4⟩).spawned =
      [.readJob ⟨[], 4⟩] := by
  constructor
  · have h := (c7_read_path 8 [] ⟨.idle (some ⟨[5, 6], 1⟩), none, 0⟩
      ⟨[5, 6], 1⟩ ⟨[], 4⟩ rfl).1 (by decide)
    rw [h]
    decide
  · exact (c7_read_path 8 [] ⟨.idle (some ⟨[], 1⟩), none, 0⟩ ⟨[], 1⟩ ⟨[], 4⟩
      rfl).2 rfl


/-- Claim C8: from Idle with `u` unread read-ahead bytes, `poll_seek`
dispatches `SeekFrom::Current(k - u)` for a relative seek (dropping the
read-ahead from the buffer), passes `Start` and `End` positions through
unchanged, and on successful completion of the seek job stores the returned
position into `idx` and returns it to the caller. -/
theorem c8_seek_path :
    (∀ (oracle : List JobOutcome) (inner : FileInner) (r : FileBuf) (k : Int),
      inner.state = .idle (some r) →
      (poll_seek oracle inner (.current k)).spawned =
        [.seekJob ⟨[], r.cap⟩ (.current (k - (r.remaining : Int)))]) ∧
    (∀ (oracle : List JobOutcome) (inner : FileInner) (r : FileBuf) (n : Nat),
      inner.state = .idle (some r) →
      (poll_seek oracle inner (.start n)).spawned =
        [.seekJob ⟨[], r.cap⟩ (.start n)]) ∧
    (∀ (oracle : List JobOutcome) (inner : FileInner) (r : FileBuf) (k : Int),
      inner.state = .idle (some r) →
      (poll_seek oracle inner (.endPos k)).spawned =
        [.seekJob ⟨[], r.cap⟩ (.endPos k)]) ∧
    (∀ (inner : FileInner) (j : JobDesc) (buf : FileBuf) (p : Nat)
        (pos : SeekFrom) (rest : List JobOutcome),
      inner.state = .seeking j →
      poll_seek (.seekDone buf (.ok p) :: rest) inner pos =
        ⟨{ inner with state := .idle (some buf), idx := p },
          .ready (.ok p), []⟩) := by
  refine ⟨?_, ?_, ?_, ?_⟩
  · intro oracle inner r k hs
    obtain ⟨st, we, ix⟩ := inner
    change st = _ at hs
    subst hs
    by_cases hu : r.data.length = 0
    · have hk : k - (r.remaining : Int) = k := by
        change k - (r.data.length : Int) = k
        rw [hu]
        simp
      rw [hk]
      cases oracle with
      | nil => simp [poll_seek, FileBuf.drop_unread, hu]
      | cons o rest => simp [poll_seek, FileBuf.drop_unread, hu]
    · cases oracle with
      | nil => simp [poll_seek, FileBuf.drop_unread, FileBuf.remaining, hu]
      | cons o rest => simp [poll_seek, FileBuf.drop_unread, FileBuf.remaining, hu]
  · intro oracle inner r n hs
    obtain ⟨st, we, ix⟩ := inner
    change st = _ at hs
    subst hs
    by_cases hu : r.data.length = 0 <;>
      cases oracle <;> simp [poll_seek, FileBuf.drop_unread, hu]
  · intro oracle inner r k hs
    obtain ⟨st, we, ix⟩ := inner
    change st = _ at hs
    subst hs
    by_cases hu : r.data.length = 0 <;>
      cases oracle <;> simp [poll_seek, FileBuf.drop_unread, hu]
  · intro inner j buf p pos rest hs
    obtain ⟨st, we, ix⟩ := inner
    change st = _ at hs
    subst hs
    simp [poll_seek, seekJobPoll]


/-- Claim C8 witness: a relative seek over 2 unread bytes and its
completion, through the theorem itself. -/
theorem c8_seek_path_witness :
    (poll_seek [] ⟨.idle (some ⟨[5, 6], 1⟩), none, 0⟩ (.current 7)).spawned =
      [.seekJob ⟨[], 1⟩ (.current 5)] ∧
    poll_seek [.seekDone ⟨[], 1⟩ (.ok 5)]
        ⟨.seeking (.seekJob ⟨[], 1⟩ (.current 5)), none, 0⟩ (.current 7) =
      ⟨⟨.idle (some ⟨[], 1⟩), none, 5⟩, .ready (.ok 5), []⟩ := by
  constructor
  · have h := c8_seek_path.1 [] ⟨.idle (some ⟨[5, 6], 1⟩), none, 0⟩
      ⟨[5, 6], 1⟩ 7 rfl
    rw [h]
    decide
  · exact c8_seek_path.2.2.2 ⟨.seeking (.seekJob ⟨[], 1⟩ (.current 5)), none, 0⟩
      (.seekJob ⟨[], 1⟩ (.current 5)) ⟨[], 1⟩ 5 (.current 7) [] rfl

/-- Helper: `poll_read` preserves the Idle-implies-Some invariant, never
panics from a well-formed state, and spawns at most one job. -/
theorem wf_poll_read (limit : Nat) :
    ∀ (oracle : List JobOutcome) (inner : FileInner) (rbuf : ReadBuf),
      inner.state.wfB = true →
      (poll_read limit oracle inner rbuf).inner.state.wfB = true ∧
      (poll_read limit oracle inner rbuf).out ≠ PollRes.panicked ∧
      (poll_read limit oracle inner rbuf).spawned.length ≤ 1 := by
  intro oracle
  induction oracle with
  | nil =>
      intro inner rbuf hwf
      obtain ⟨st, we, ix⟩ := inner
      cases st with
      | idle b =>
          cases b with
          | none => simp [FileState.wfB] at hwf
          | some r =>
              by_cases hr : r.data.length = 0 <;>
                simp [poll_read, FileState.wfB, FileBuf.remaining, hr]
      | reading j => simp [poll_read, FileState.wfB]
      | writing j => simp [poll_read, FileState.wfB]
      | seeking j => simp [poll_read, FileState.wfB]
  | cons o rest ih =>
      intro inner rbuf hwf
      obtain ⟨st, we, ix⟩ := inner
      cases st with
      | idle b =>
          cases b with
          | none => simp [FileState.wfB] at hwf
          | some r =>
              by_cases hr : r.data.length = 0
              · cases o with
                | pending =>
                    simp [poll_read, readJobPoll, FileState.wfB,
                      FileBuf.remaining, hr]
                | rwDone buf res =>
                    cases res with
                    | ok u =>
                        simp [poll_read, readJobPoll, FileState.wfB,
                          FileBuf.remaining, hr]
                    | error e =>
                        simp [poll_read, readJobPoll, FileState.wfB,
                          FileBuf.remaining, hr]
                | seekDone buf res =>
                    simp [poll_read, readJobPoll, FileState.wfB,
                      FileBuf.remaining, hr]
              · simp [poll_read, FileState.wfB, FileBuf.remaining, hr]
      | reading j =>
          cases o with
          | pending => simp [poll_read, readJobPoll, FileState.wfB]
          | rwDone buf res =>
              cases res with
              | ok u => simp [poll_read, readJobPoll, FileState.wfB]
              | error e => simp [poll_read, readJobPoll, FileState.wfB]
          | seekDone buf res => simp [poll_read, readJobPoll, FileState.wfB]
      | writing j =>
          cases o with
          | pending => simp [poll_read, FileState.wfB]
          | rwDone buf res =>
              cases res with
              | ok u =>
                  simp only [poll_read]
                  exact ih _ _ (by rfl)
              | error e =>
                  simp only [poll_read]
                  exact ih _ _ (by rfl)
          | seekDone buf res => simp [poll_read, FileState.wfB]
      | seeking j =>
          cases o with
          | pending => simp [poll_read, FileState.wfB]
          | rwDone buf res => simp [poll_read, FileState.wfB]
          | seekDone buf res =>
              cases res with
              | ok u =>
                  simp only [poll_read]
                  exact ih _ _ (by rfl)
              | error e =>
                  simp only [poll_read]
                  exact ih _ _ (by rfl)

/-- Helper: the `poll_write` loop preserves the invariant, never panics from
a well-formed state, and spawns at most one job. -/
theorem wf_pollWriteLoop (limit : Nat) (payload : List Nat) :
    ∀ (oracle : List JobOutcome) (inner : FileInner),
      inner.state.wfB = true →
      (pollWriteLoop limit payload oracle inner).inner.state.wfB = true ∧
      (pollWriteLoop limit payload oracle inner).out ≠ PollRes.panicked ∧
      (pollWriteLoop limit payload oracle inner).spawned.length ≤ 1 := by
  intro oracle
  induction oracle with
  | nil =>
      intro inner hwf
      obtain ⟨st, we, ix⟩ := inner
      cases st with
      | idle b =>
          cases b with
          | none => simp [FileState.wfB] at hwf
          | some w => simp [pollWriteLoop, FileState.wfB]
      | reading j => simp [pollWriteLoop, FileState.wfB]
      | writing j => simp [pollWriteLoop, FileState.wfB]
      | seeking j => simp [pollWriteLoop, FileState.wfB]
  | cons o rest ih =>
      intro inner hwf
      obtain ⟨st, we, ix⟩ := inner
      cases st with
      | idle b =>
          cases b with
          | none => simp [FileState.wfB] at hwf
          | some w => simp [pollWriteLoop, FileState.wfB]
      | reading j =>
          cases o with
          | pending =>
              simp only [pollWriteLoop]
              exact ih _ (by rfl)
          | rwDone buf res =>
              simp only [pollWriteLoop]
              exact ih _ (by rfl)
          | seekDone buf res =>
              simp only [pollWriteLoop]
              exact ih _ (by rfl)
      | writing j =>
          cases o with
          | pending =>
              simp only [pollWriteLoop]
              exact ih _ (by rfl)
          | rwDone buf res =>
              cases res with
              | ok u =>
                  simp only [pollWriteLoop]
                  exact ih _ (by rfl)
              | error e => simp [pollWriteLoop, FileState.wfB]
          | seekDone buf res =>
              simp only [pollWriteLoop]
              exact ih _ (by rfl)
      | seeking j =>
          cases o with
          | pending =>
              simp only [pollWriteLoop]
              exact ih _ (by rfl)
          | rwDone buf res =>
              simp only [pollWriteLoop]
              exact ih _ (by rfl)
          | seekDone buf res =>
              simp only [pollWriteLoop]
              exact ih _ (by rfl)

/-- Helper: `poll_write` preserves the invariant, never panics from a
well-formed state, and spawns at most one job. -/
theorem wf_poll_write (limit : Nat) (payload : List Nat)
    (oracle : List JobOutcome) (inner : FileInner)
    (hwf : inner.state.wfB = true) :
    (poll_write limit payload oracle inner).inner.state.wfB = true ∧
    (poll_write limit payload oracle inner).out ≠ PollRes.panicked ∧
    (poll_write limit payload oracle inner).spawned.length ≤ 1 := by
  obtain ⟨st, we, ix⟩ := inner
  cases we with
  | none =>
      simp only [poll_write]
      exact wf_pollWriteLoop limit payload oracle _ hwf
  | some e => simpa [poll_write] using hwf

/-- Helper: `poll_seek` preserves the invariant, never panics from a
well-formed state, and spawns at most one job. -/
theorem wf_poll_seek :
    ∀ (oracle : List JobOutcome) (inner : FileInner) (pos : SeekFrom),
      inner.state.wfB = true →
      (poll_seek oracle inner pos).inner.state.wfB = true ∧
      (poll_seek oracle inner pos).out ≠ PollRes.panicked ∧
      (poll_seek oracle inner pos).spawned.length ≤ 1 := by
  intro oracle
  induction oracle with
  | nil =>
      intro inner pos hwf
      obtain ⟨st, we, ix⟩ := inner
      cases st with
      | idle b =>
          cases b with
          | none => simp [FileState.wfB] at hwf
          | some r => simp [poll_seek, FileState.wfB]
      | reading j => simp [poll_seek, FileState.wfB]
      | writing j => simp [poll_seek, FileState.wfB]
      | seeking j => simp [poll_seek, FileState.wfB]
  | cons o rest ih =>
      intro inner pos hwf
      obtain ⟨st, we, ix⟩ := inner
      cases st with
      | idle b =>
          cases b with
          | none => simp [FileState.wfB] at hwf
          | some r =>
              cases o with
              | pending => simp [poll_seek, seekJobPoll, FileState.wfB]
              | rwDone buf res => simp [poll_seek, seekJobPoll, FileState.wfB]
              | seekDone buf res =>
                  cases res with
                  | ok u => simp [poll_seek, seekJobPoll, FileState.wfB]
                  | error e => simp [poll_seek, seekJobPoll, FileState.wfB]
      | seeking j =>
          cases o with
          | pending => simp [poll_seek, seekJobPoll, FileState.wfB]
          | rwDone buf res => simp [poll_seek, seekJobPoll, FileState.wfB]
          | seekDone buf res =>
              cases res with
              | ok u => simp [poll_seek, seekJobPoll, FileState.wfB]
              | error e => simp [poll_seek, seekJobPoll, FileState.wfB]
      | reading j =>
          cases o with
          | pending => simp [poll_seek, FileState.wfB]
          | rwDone buf res =>
              simp only [poll_seek]
              exact ih _ _ (by rfl)
          | seekDone buf res => simp [poll_seek, FileState.wfB]
      | writing j =>
          cases o with
          | pending => simp [poll_seek, FileState.wfB]
          | rwDone buf res =>
              cases res with
              | ok u =>
                  simp only [poll_seek]
                  exact ih _ _ (by rfl)
              | error e =>
                  simp only [poll_seek]
                  exact ih _ _ (by rfl)
          | seekDone buf res => simp [poll_seek, FileState.wfB]

/-- Helper: `poll_flush` preserves the invariant and never panics from a
well-formed state. -/
theorem wf_poll_flush (oracle : List JobOutcome) (inner : FileInner)
    (hwf : inner.state.wfB = true) :
    (poll_flush oracle inner).1.state.wfB = true ∧
    (poll_flush oracle inner).2 ≠ PollRes.panicked := by
  obtain ⟨st, we, ix⟩ := inner
  cases we with
  | some e => simpa [poll_flush] using hwf
  | none =>
      cases st with
      | idle b =>
          cases b with
          | none => simp [FileState.wfB] at hwf
          | some r => simp [poll_flush, FileState.wfB]
      | reading j =>
          cases oracle with
          | nil => simp [poll_flush, FileState.wfB]
          | cons o rest =>
              cases o with
              | pending => simp [poll_flush, FileState.wfB]
              | rwDone buf res => simp [poll_flush, FileState.wfB]
              | seekDone buf res => simp [poll_flush, FileState.wfB]
      | writing j =>
          cases oracle with
          | nil => simp [poll_flush, FileState.wfB]
          | cons o rest =>
              cases o with
              | pending => simp [poll_flush, FileState.wfB]
              | rwDone buf res =>
                  cases res with
                  | ok u => simp [poll_flush, FileState.wfB]
                  | error e => simp [poll_flush, FileState.wfB]
              | seekDone buf res => simp [poll_flush, FileState.wfB]
      | seeking j =>
          cases oracle with
          | nil => simp [poll_flush, FileState.wfB]
          | cons o rest =>
              cases o with
              | pending => simp [poll_flush, FileState.wfB]
              | rwDone buf res => simp [poll_flush, FileState.wfB]
              | seekDone buf res => simp [poll_flush, FileState.wfB]

/-- Helper: `FileInner::flush` preserves the invariant. -/
theorem wf_flush (oracle : List JobOutcome) (inner : FileInner)
    (hwf : inner.state.wfB = true) :
    (FileInner.flush oracle inner).1.state.wfB = true := by
  have h := wf_poll_flush oracle inner hwf
  unfold FileInner.flush
  cases hp : poll_flush oracle inner with
  | mk i1 res =>
      rw [hp] at h
      cases res with
      | ready a =>
          cases a with
          | ok u => exact h.1
          | error e => exact h.1
      | pending => exact h.1
      | panicked => exact h.1

/-- Helper: `set_len` preserves the invariant. -/
theorem wf_set_len (oracle : List JobOutcome) (inner : FileInner)
    (size : Nat) (phys : PhysFile) (hwf : inner.state.wfB = true) :
    (set_len oracle inner size phys).inner.state.wfB = true := by
  have hfl := wf_flush oracle inner hwf
  unfold set_len
  cases hp : FileInner.flush oracle inner with
  | mk i1 b =>
      rw [hp] at hfl
      cases b with
      | false => exact hfl
      | true =>
          cases hstate : i1.state with
          | idle ob =>
              cases ob with
              | none =>
                  rw [hstate] at hfl
                  simp [FileState.wfB] at hfl
              | some buf =>
                  cases ht : (setLenTask buf size phys).2.2 with
                  | ok u => simp [hstate, ht, FileState.wfB]
                  | error e => simp [hstate, ht, FileState.wfB]
          | reading j => simp [hstate, FileState.wfB]
          | writing j => simp [hstate, FileState.wfB]
          | seeking j => simp [hstate, FileState.wfB]

/-- Claim C5: from any well-formed state (`Idle` implies the buffer option
is `Some`), every poll of poll_read / poll_write / poll_seek / poll_flush /
set_len leaves the state as exactly one of `Idle(Some(_))`, `Reading`,
`Writing`, `Seeking`, never reaches the panicking arms, and spawns at most
one blocking job per poll — a job is only spawned from `Idle`, after any
previous job variant has been reaped back to `Idle(Some(buf))`. -/
theorem c5_file_state_invariant :
    (∀ (limit : Nat) (oracle : List JobOutcome) (inner : FileInner)
        (rbuf : ReadBuf), inner.state.wfB = true →
      (poll_read limit oracle inner rbuf).inner.state.wfB = true ∧
      (poll_read limit oracle inner rbuf).out ≠ PollRes.panicked ∧
      (poll_read limit oracle inner rbuf).spawned.length ≤ 1) ∧
    (∀ (limit : Nat) (payload : List Nat) (oracle : List JobOutcome)
        (inner : FileInner), inner.state.wfB = true →
      (poll_write limit payload oracle inner).inner.state.wfB = true ∧
      (poll_write limit payload oracle inner).out ≠ PollRes.panicked ∧
      (poll_write limit payload oracle inner).spawned.length ≤ 1) ∧
    (∀ (oracle : List JobOutcome) (inner : FileInner) (pos : SeekFrom),
        inner.state.wfB = true →
      (poll_seek oracle inner pos).inner.state.wfB = true ∧
      (poll_seek oracle inner pos).out ≠ PollRes.panicked ∧
      (poll_seek oracle inner pos).spawned.length ≤ 1) ∧
    (∀ (oracle : List JobOutcome) (inner : FileInner),
        inner.state.wfB = true →
      (poll_flush oracle inner).1.state.wfB = true ∧
      (poll_flush oracle inner).2 ≠ PollRes.panicked) ∧
    (∀ (oracle : List JobOutcome) (inner : FileInner) (size : Nat)
        (phys : PhysFile), inner.state.wfB = true →
      (set_len oracle inner size phys).inner.state.wfB = true) :=
  ⟨fun limit oracle inner rbuf hwf => wf_poll_read limit oracle inner rbuf hwf,
   fun limit payload oracle inner hwf =>
     wf_poll_write limit payload oracle inner hwf,
   fun oracle inner pos hwf => wf_poll_seek oracle inner pos hwf,
   fun oracle inner hwf => wf_poll_flush oracle inner hwf,
   fun oracle inner size phys hwf => wf_set_len oracle inner size phys hwf⟩

/-- Claim C5 witness: a completed write job reaped by `poll_read`, and an
idle seek dispatch, through the theorem itself. -/
theorem c5_file_state_invariant_witness :
    (poll_read 4 [JobOutcome.rwDone ⟨[9], 0⟩ (.ok ())]
        ⟨.writing (.writeJob 0 ⟨[1], 0⟩), none, 0⟩
        ⟨[], 2⟩).inner.state.wfB = true ∧
    (poll_seek [] ⟨.idle (some ⟨[], 0⟩), none, 0⟩
        (.current 3)).spawned.length ≤ 1 :=
  ⟨(c5_file_state_invariant.1 4 [JobOutcome.rwDone ⟨[9], 0⟩ (.ok ())]
      ⟨.writing (.writeJob 0 ⟨[1], 0⟩), none, 0⟩ ⟨[], 2⟩ (by decide)).1,
   (c5_file_state_invariant.2.2.1 [] ⟨.idle (some ⟨[], 0⟩), none, 0⟩
      (.current 3) (by decide)).2.2⟩

/-- Claim C9: `try_into_std` succeeds iff no blocking job still holds a
clone of the shared file handle, and on contention returns the `File`
itself (shared handle restored) as the error; `into_std` flushes and
succeeds iff the flush completed with no job outstanding; in particular
when a write job is in flight and the flush oracle completes it, `into_std`
returns the underlying file and a subsequent `try_into_std` succeeds. -/
theorem c9_into_std :
    (∀ f : File, (f.try_into_std = .ok f.file ↔ f.inner.state.jobClones = 0)) ∧
    (∀ f : File, f.inner.state.jobClones ≠ 0 → f.try_into_std = .error f) ∧
    (∀ (oracle : List JobOutcome) (f : File),
      (File.into_std oracle f).isSome = true ↔
        ((FileInner.flush oracle f.inner).2 = true ∧
         (FileInner.flush oracle f.inner).1.state.jobClones = 0)) ∧
    (∀ (f : File) (j : JobDesc) (buf : FileBuf) (res : Except ErrorKind Unit)
        (rest : List JobOutcome),
      f.inner.write_err = none → f.inner.state = .writing j →
      (FileInner.flush (.rwDone buf res :: rest) f.inner).2 = true ∧
      (FileInner.flush (.rwDone buf res :: rest) f.inner).1.state =
        .idle (some buf) ∧
      File.into_std (.rwDone buf res :: rest) f = some f.file ∧
      File.try_into_std
          { f with inner := (FileInner.flush (.rwDone buf res :: rest) f.inner).1 } =
        .ok f.file) := by
  refine ⟨?_, ?_, ?_, ?_⟩
  · intro f
    unfold File.try_into_std File.arcStrongCount
    by_cases h : f.inner.state.jobClones = 0
    · simp [h]
    · simp [h]
  · intro f h
    unfold File.try_into_std File.arcStrongCount
    have : ¬ (1 + f.inner.state.jobClones = 1) := by omega
    simp [this]
  · intro oracle f
    unfold File.into_std File.arcStrongCount
    by_cases h1 : (FileInner.flush oracle f.inner).2 = true
    · by_cases h2 : (FileInner.flush oracle f.inner).1.state.jobClones = 0
      · simp [h1, h2]
      · have : ¬ (1 + (FileInner.flush oracle f.inner).1.state.jobClones = 1) := by
          omega
        simp [h1, h2, this]
    · simp [h1]
  · intro f j buf res rest he hs
    obtain ⟨phys, inner⟩ := f
    obtain ⟨st, we, ix⟩ := inner
    change we = none at he
    change st = _ at hs
    subst he
    subst hs
    cases res with
    | ok u =>
        refine ⟨rfl, rfl, ?_, rfl⟩
        simp [File.into_std, FileInner.flush, poll_flush, File.arcStrongCount,
          FileState.jobClones, Except.map]
    | error e =>
        refine ⟨rfl, rfl, ?_, rfl⟩
        simp [File.into_std, FileInner.flush, poll_flush, File.arcStrongCount,
          FileState.jobClones, Except.map]

/-- Claim C9 witness: contention returns the file back; after a completing
flush `into_std` succeeds; through the theorem itself. -/
theorem c9_into_std_witness :
    File.try_into_std ⟨⟨[1, 2], 0⟩, ⟨.writing (.writeJob 0 ⟨[3], 0⟩), none, 0⟩⟩ =
      .error ⟨⟨[1, 2], 0⟩, ⟨.writing (.writeJob 0 ⟨[3], 0⟩), none, 0⟩⟩ ∧
    File.into_std [JobOutcome.rwDone ⟨[], 0⟩ (.ok ())]
        ⟨⟨[1, 2], 0⟩, ⟨.writing (.writeJob 0 ⟨[3], 0⟩), none, 0⟩⟩ =
      some ⟨[1, 2], 0⟩ :=
  ⟨c9_into_std.2.1 ⟨⟨[1, 2], 0⟩, ⟨.writing (.writeJob 0 ⟨[3], 0⟩), none, 0⟩⟩
      (by decide),
   (c9_into_std.2.2.2 ⟨⟨[1, 2], 0⟩, ⟨.writing (.writeJob 0 ⟨[3], 0⟩), none, 0⟩⟩
      (.writeJob 0 ⟨[3], 0⟩) ⟨[], 0⟩ (.ok ()) [] rfl rfl).2.2.1⟩
